import Mathlib

/-!
Verification of the extraction engine of the dealroom-scraper repository
(`src/parser/dealroom_extractor.py`).

The Python extractor is shallowly embedded here:

* Parsed JSON payloads (the results of `json.loads` on embedded script
  blocks) are modelled by the inductive type `Json`.  Python's `None` and
  JSON `null` coincide in the source (both are `None`), so `Json.null`
  models both; `dict.get(k)` with a missing key therefore yields
  `Json.null`.
* A parsed HTML document is modelled by `HtmlDoc`: the fields are exactly
  the projections of the BeautifulSoup document that the extractor reads
  (script tags in document order, anchor hrefs in document order, the
  relevant meta/link tags, and the visible text).  Each script tag carries
  its raw text together with the result of `json.loads` on that text
  (`none` models a parse failure).
* The mutable `CompanyRecord` dataclass becomes an immutable structure
  threaded through the extraction passes.
* Statements the Python code can raise on (`t.lower()` of a non-string,
  `.get` on a non-dict, hashing an unhashable tuple component) are
  modelled in the `Except PyErr` monad; everything else is total.
-/

/-- Exceptions the extractor can raise: `AttributeError` (calling a missing
method such as `lower`/`get` on a value that lacks it) and `TypeError`
(hashing an unhashable value inside a `set` membership test). -/
inductive PyErr where
  | attributeError : PyErr
  | typeError : PyErr
deriving DecidableEq, Repr

/-- Parsed JSON values, the output of Python's `json.loads`.  Numbers are
modelled as integers (the payloads relevant to the extractor carry years
and amounts).  `null` also models Python's `None`. -/
inductive Json where
  | null : Json
  | bool (b : Bool) : Json
  | num (n : Int) : Json
  | str (s : String) : Json
  | arr (xs : List Json) : Json
  | obj (kvs : List (String × Json)) : Json

mutual
/-- Structural equality on `Json` values (Python `==` on parsed JSON values
of like types). -/
def jsonEq : Json → Json → Bool
  | .null, .null => true
  | .bool a, .bool b => a == b
  | .num a, .num b => a == b
  | .str a, .str b => a == b
  | .arr xs, .arr ys => jsonListEq xs ys
  | .obj xs, .obj ys => jsonKvsEq xs ys
  | _, _ => false
termination_by structural j => j

/-- Pointwise equality on JSON arrays. -/
def jsonListEq : List Json → List Json → Bool
  | [], [] => true
  | x :: xs, y :: ys => jsonEq x y && jsonListEq xs ys
  | _, _ => false
termination_by structural l => l

/-- Pointwise equality on JSON object entry lists. -/
def jsonKvsEq : List (String × Json) → List (String × Json) → Bool
  | [], [] => true
  | (k, v) :: xs, (k2, v2) :: ys => k == k2 && jsonEq v v2 && jsonKvsEq xs ys
  | _, _ => false
termination_by structural l => l
end

mutual
theorem jsonEq_refl : ∀ a, jsonEq a a = true
  | .null => by simp [jsonEq]
  | .bool b => by simp [jsonEq]
  | .num n => by simp [jsonEq]
  | .str s => by simp [jsonEq]
  | .arr xs => by simp [jsonEq, jsonListEq_refl xs]
  | .obj kvs => by simp [jsonEq, jsonKvsEq_refl kvs]
termination_by structural a => a

theorem jsonListEq_refl : ∀ l, jsonListEq l l = true
  | [] => by simp [jsonListEq]
  | x :: xs => by simp [jsonListEq, jsonEq_refl x, jsonListEq_refl xs]
termination_by structural l => l

theorem jsonKvsEq_refl : ∀ l, jsonKvsEq l l = true
  | [] => by simp [jsonKvsEq]
  | (k, v) :: xs => by simp [jsonKvsEq, jsonEq_refl v, jsonKvsEq_refl xs]
termination_by structural l => l
end

mutual
theorem jsonEq_eq : ∀ a b, jsonEq a b = true → a = b
  | .null, b => by cases b <;> simp [jsonEq]
  | .bool x, b => by cases b <;> simp [jsonEq]
  | .num x, b => by cases b <;> simp [jsonEq]
  | .str x, b => by cases b <;> simp [jsonEq]
  | .arr xs, .null => by simp [jsonEq]
  | .arr xs, .bool _ => by simp [jsonEq]
  | .arr xs, .num _ => by simp [jsonEq]
  | .arr xs, .str _ => by simp [jsonEq]
  | .arr xs, .obj _ => by simp [jsonEq]
  | .arr xs, .arr ys => by
      simp only [jsonEq, Json.arr.injEq]
      exact jsonListEq_eq xs ys
  | .obj xs, .null => by simp [jsonEq]
  | .obj xs, .bool _ => by simp [jsonEq]
  | .obj xs, .num _ => by simp [jsonEq]
  | .obj xs, .str _ => by simp [jsonEq]
  | .obj xs, .arr _ => by simp [jsonEq]
  | .obj xs, .obj ys => by
      simp only [jsonEq, Json.obj.injEq]
      exact jsonKvsEq_eq xs ys
termination_by structural a => a

theorem jsonListEq_eq : ∀ l m, jsonListEq l m = true → l = m
  | [], [] => by simp
  | [], _ :: _ => by simp [jsonListEq]
  | _ :: _, [] => by simp [jsonListEq]
  | x :: xs, y :: ys => by
      simp only [jsonListEq, Bool.and_eq_true, List.cons.injEq]
      intro h
      exact ⟨jsonEq_eq x y h.1, jsonListEq_eq xs ys h.2⟩
termination_by structural l => l

theorem jsonKvsEq_eq : ∀ l m, jsonKvsEq l m = true → l = m
  | [], [] => by simp
  | [], _ :: _ => by simp [jsonKvsEq]
  | _ :: _, [] => by simp [jsonKvsEq]
  | (k, v) :: xs, (k2, v2) :: ys => by
      simp only [jsonKvsEq, Bool.and_eq_true, List.cons.injEq, Prod.mk.injEq, beq_iff_eq]
      intro h
      exact ⟨⟨h.1.1, jsonEq_eq v v2 h.1.2⟩, jsonKvsEq_eq xs ys h.2⟩
termination_by structural l => l
end

instance : DecidableEq Json := fun a b =>
  decidable_of_iff (jsonEq a b = true) ⟨jsonEq_eq a b, fun h => h ▸ jsonEq_refl a⟩

/-- Python truthiness of a parsed JSON value (`bool(x)`). -/
def truthy : Json → Bool
  | .null => false
  | .bool b => b
  | .num n => n != 0
  | .str s => s != ""
  | .arr xs => !xs.isEmpty
  | .obj kvs => !kvs.isEmpty

/-- Key lookup on a JSON object: `some v` when the key is present (first
occurrence; `json.loads` produces dicts with unique keys), `none` when the
key is absent or the value is not a dict. -/
def Json.find? (j : Json) (k : String) : Option Json :=
  match j with
  | .obj kvs => kvs.lookup k
  | _ => none

/-- Python `d.get(k)`: the value under `k`, or `None` when absent.  Since
`Json.null` models `None`, absence collapses to `Json.null`. -/
def Json.get (j : Json) (k : String) : Json := (j.find? k).getD Json.null

/-- Python `a or b` on parsed JSON values: `a` when truthy, else `b`. -/
def pyOr (a b : Json) : Json := if truthy a then a else b

/-- Hashability of a parsed JSON value: Python lists and dicts are
unhashable; `None`, booleans, numbers and strings are hashable. -/
def hashableJson : Json → Bool
  | .arr _ => false
  | .obj _ => false
  | _ => true

/-- Python `s.lower()`: character-wise lowercasing (the keywords the
extractor compares against are ASCII, where `Char.toLower` agrees with
Python's `str.lower`). -/
def lowerStr (s : String) : String := String.mk (s.data.map Char.toLower)

/-- Whether `ps` is a leading segment of `hs` (character lists). -/
def listStartsWith : List Char → List Char → Bool
  | [], _ => true
  | _ :: _, [] => false
  | p :: ps, h :: hs => p == h && listStartsWith ps hs

/-- Whether `ps` occurs contiguously anywhere inside `hs` (character
lists); the empty pattern occurs in every list, as in Python. -/
def listHasSub : List Char → List Char → Bool
  | ps, [] => ps.isEmpty
  | ps, h :: hs => listStartsWith ps (h :: hs) || listHasSub ps hs

/-- Python's `needle in hay` on strings: contiguous substring test. -/
def pyIn (needle hay : String) : Bool := listHasSub needle.data hay.data

/-- Python `s.strip()` (the extractor only strips ASCII whitespace in
practice, where `String.trim` agrees). -/
def pyStrip (s : String) : String := s.trim

/-- Python `s.startswith(p)`. -/
def pyStartsWith (s p : String) : Bool := listStartsWith p.data s.data

mutual
/-- Python `repr` of a parsed JSON value, used by `str()` on non-strings.
Strings are rendered between single quotes; the quote-escaping Python
performs for strings that themselves contain quotes is not reproduced (no
extractor input in the claims exercises it). -/
def pyRepr : Json → String
  | .null => "None"
  | .bool true => "True"
  | .bool false => "False"
  | .num n => toString n
  | .str s => "'" ++ s ++ "'"
  | .arr xs => "[" ++ pyReprList xs ++ "]"
  | .obj kvs => "\x7b" ++ pyReprKvs kvs ++ "\x7d"
termination_by structural j => j

/-- Comma-separated `repr` of the elements of a JSON array. -/
def pyReprList : List Json → String
  | [] => ""
  | [x] => pyRepr x
  | x :: y :: xs => pyRepr x ++ ", " ++ pyReprList (y :: xs)
termination_by structural l => l

/-- Comma-separated `repr` of the entries of a JSON object. -/
def pyReprKvs : List (String × Json) → String
  | [] => ""
  | [(k, v)] => "'" ++ k ++ "': " ++ pyRepr v
  | (k, v) :: e :: kvs => "'" ++ k ++ "': " ++ pyRepr v ++ ", " ++ pyReprKvs (e :: kvs)
termination_by structural l => l
end

/-- Python `str(x)` on a parsed JSON value: the identity on strings, the
`repr` rendering otherwise. -/
def pyStr : Json → String
  | .str s => s
  | j => pyRepr j

/-- Code-point lexicographic strict order on character lists (Python's
string `<`). -/
def listLtChars : List Char → List Char → Bool
  | [], [] => false
  | [], _ :: _ => true
  | _ :: _, [] => false
  | a :: as, b :: bs =>
      if Nat.blt a.toNat b.toNat then true
      else if Nat.blt b.toNat a.toNat then false
      else listLtChars as bs

/-- Code-point lexicographic `≤` on strings. -/
def strLe (a b : String) : Bool := !listLtChars b.data a.data

/-- Insert a string into a sorted list of strings, keeping it sorted. -/
def insertSorted (s : String) : List String → List String
  | [] => [s]
  | t :: ts => if strLe s t then s :: t :: ts else t :: insertSorted s ts

/-- Python `sorted` on a list of strings (code-point lexicographic order,
which is `String.le` in Lean). -/
def sortStrings (l : List String) : List String := l.foldr insertSorted []

/-- Distinct-elements scan with a seen accumulator. -/
def dedupStringsGo : List String → List String → List String
  | [], _ => []
  | s :: ss, seen =>
      if seen.contains s then dedupStringsGo ss seen
      else s :: dedupStringsGo ss (s :: seen)

/-- Python `set(...)` on a list of strings, viewed as the list of distinct
elements (first occurrences); the arbitrary set order is irrelevant
because the extractor always sorts afterwards. -/
def dedupStrings (l : List String) : List String := dedupStringsGo l []

mutual
/-- Whether a parsed JSON value is recursively free of `null` and of empty
arrays/objects (the round-trip cleanliness predicate of the spec). -/
def jsonClean : Json → Bool
  | .null => false
  | .bool _ => true
  | .num _ => true
  | .str _ => true
  | .arr xs => !xs.isEmpty && jsonListClean xs
  | .obj kvs => !kvs.isEmpty && jsonKvsClean kvs
termination_by structural j => j

/-- Cleanliness of every element of a JSON array. -/
def jsonListClean : List Json → Bool
  | [] => true
  | x :: xs => jsonClean x && jsonListClean xs
termination_by structural l => l

/-- Cleanliness of every value of a JSON object. -/
def jsonKvsClean : List (String × Json) → Bool
  | [] => true
  | (_, v) :: kvs => jsonClean v && jsonKvsClean kvs
termination_by structural l => l
end

/-- Cleanliness of a re-parsed output mapping: no value is `null` or an
empty container, recursively. -/
def mappingClean (kvs : List (String × Json)) : Bool := jsonKvsClean kvs

/-- A `<script>` element of the parsed document.  `typeAttr` is its `type`
attribute; `text` is `script.string or script.get_text()`; `json` is the
result of `json.loads(text)` (`none` models a `json.JSONDecodeError` or
`TypeError`, which the extractor catches). -/
structure ScriptTag where
  typeAttr : Option String := none
  text : String := ""
  json : Option Json := none
deriving DecidableEq

/-- The projections of a BeautifulSoup-parsed HTML document that the
extractor reads.  Meta/link fields are `none` when `soup.find` returns no
element, and `some a` when the first matching element has attribute value
`a` (`a = none` when the element lacks the attribute).  `visibleText`
models `soup.get_text(separator=" ", strip=True)`. -/
structure HtmlDoc where
  scripts : List ScriptTag := []
  anchorHrefs : List String := []
  metaDescContent : Option (Option String) := none
  metaOgDescContent : Option (Option String) := none
  canonicalHref : Option (Option String) := none
  metaOgUrlContent : Option (Option String) := none
  visibleText : String := ""
deriving DecidableEq

/-- One normalized funding-round entry, as built by
`_walk_for_funding_and_investors` (a dict with exactly these five keys). -/
structure FundingRound where
  year : Json
  round : Json
  amount : Json
  currency : Json
  investors : Json
deriving DecidableEq

/-- One normalized investor entry, as built by
`_walk_for_funding_and_investors` (a dict with exactly these three keys). -/
structure InvestorEntry where
  name : Json
  type : Json
  path : Json
deriving DecidableEq

/-- One harvested headquarters location, as built by `_walk_for_locations`
(a dict with exactly these two keys). -/
structure HqLocation where
  address : Json
  country : Json
deriving DecidableEq

/-- The `CompanyRecord` dataclass.  Fields annotated `Optional[str]` in the
source are `Option String`; `about` is `Json` because the source assigns it
`ld.get("description")` unchecked (with `Json.null` standing for the `None`
default); the four reserved fields (`team`, `kpi_summary`,
`nearby_companies`, `related_companies`, `news`) are never written and stay
empty. -/
structure CompanyRecord where
  about : Json := Json.null
  company_status : Option String := none
  funding_rounds : List FundingRound := []
  growth_stage : Option String := none
  employees : Option String := none
  similarweb_traffic : Option String := none
  social_links : List (String × String) := []
  investors : List InvestorEntry := []
  industries : List String := []
  team : List Json := []
  hq_locations : List HqLocation := []
  kpi_summary : List (String × Json) := []
  nearby_companies : List Json := []
  related_companies : List Json := []
  news : List Json := []
  website_url : Option String := none
  linkedin_url : Option String := none
  twitter_url : Option String := none
  instagram_url : Option String := none
  raw_source_url : Option String := none
deriving DecidableEq

/-- JSON rendering of a funding-round entry (dict key insertion order). -/
def frToJson (fr : FundingRound) : Json :=
  Json.obj [("year", fr.year), ("round", fr.round), ("amount", fr.amount),
    ("currency", fr.currency), ("investors", fr.investors)]

/-- JSON rendering of an investor entry (dict key insertion order). -/
def invToJson (inv : InvestorEntry) : Json :=
  Json.obj [("name", inv.name), ("type", inv.type), ("path", inv.path)]

/-- JSON rendering of a location entry (dict key insertion order). -/
def locToJson (loc : HqLocation) : Json :=
  Json.obj [("address", loc.address), ("country", loc.country)]

/-- JSON rendering of an optional string field (`None` becomes `null`). -/
def optStrJson : Option String → Json
  | none => Json.null
  | some s => Json.str s

/-- The full field dictionary built at the top of `CompanyRecord.to_dict`,
in the source's key order, with every field rendered as the JSON value it
serializes to. -/
def rawFields (r : CompanyRecord) : List (String × Json) :=
  [("about", r.about),
   ("company_status", optStrJson r.company_status),
   ("funding_rounds", Json.arr (r.funding_rounds.map frToJson)),
   ("growth_stage", optStrJson r.growth_stage),
   ("employees", optStrJson r.employees),
   ("similarweb_traffic", optStrJson r.similarweb_traffic),
   ("social_links", Json.obj (r.social_links.map (fun kv => (kv.1, Json.str kv.2)))),
   ("investors", Json.arr (r.investors.map invToJson)),
   ("industries", Json.arr (r.industries.map Json.str)),
   ("team", Json.arr r.team),
   ("hq_locations", Json.arr (r.hq_locations.map locToJson)),
   ("kpi_summary", Json.obj r.kpi_summary),
   ("nearby_companies", Json.arr r.nearby_companies),
   ("related_companies", Json.arr r.related_companies),
   ("news", Json.arr r.news),
   ("website_url", optStrJson r.website_url),
   ("linkedin_url", optStrJson r.linkedin_url),
   ("twitter_url", optStrJson r.twitter_url),
   ("instagram_url", optStrJson r.instagram_url),
   ("raw_source_url", optStrJson r.raw_source_url)]

/-- The cleaning test of `CompanyRecord.to_dict`: a value is dropped when
it `is None` or is an empty list/dict. -/
def dropValue : Json → Bool
  | .null => true
  | .arr xs => xs.isEmpty
  | .obj kvs => kvs.isEmpty
  | _ => false

/-- `CompanyRecord.to_dict`: the field dictionary with `None` values and
empty containers removed, key order preserved. -/
def CompanyRecord.to_dict (r : CompanyRecord) : List (String × Json) :=
  (rawFields r).filter (fun kv => !dropValue kv.2)

/-- The generator test of `_extract_ld_organization` for a list-valued
`@type`: `any(t.lower() in ("organization", "corp", "corporation") for t
in obj_type)`.  The generator short-circuits on the first match; calling
`.lower()` on a non-string entry raises `AttributeError`, which no handler
catches. -/
def orgTypeMatchList : List Json → Except PyErr Bool
  | [] => .ok false
  | .str s :: ts =>
      if ["organization", "corp", "corporation"].contains (lowerStr s) then .ok true
      else orgTypeMatchList ts
  | _ :: _ => .error .attributeError

/-- The `is_org` test of `_extract_ld_organization` on one candidate dict:
a list `@type` matches through `orgTypeMatchList`; a string `@type`
matches the four keywords `organization`, `corp`, `corporation`,
`company`; anything else does not match. -/
def isOrgCandidate (o : Json) : Except PyErr Bool :=
  match o.get "@type" with
  | .arr ts => orgTypeMatchList ts
  | .str s => .ok (["organization", "corp", "corporation", "company"].contains (lowerStr s))
  | _ => .ok false

/-- Candidate dicts of one JSON-LD payload: the payload itself when it is
a dict, its dict elements when it is a list, nothing otherwise. -/
def ldCandidates : Json → List Json
  | .obj kvs => [.obj kvs]
  | .arr xs => xs.filter (fun x => match x with | .obj _ => true | _ => false)
  | _ => []

/-- Scan of the candidate dicts of one payload: the first candidate whose
`is_org` test succeeds, errors propagating. -/
def findOrgInCandidates : List Json → Except PyErr (Option Json)
  | [] => .ok none
  | c :: cs =>
      match isOrgCandidate c with
      | .error e => .error e
      | .ok b => if b then .ok (some c) else findOrgInCandidates cs

/-- Scan of the `application/ld+json` scripts in document order: skip
scripts with empty text or unparsable payloads, return the first accepted
organization dict. -/
def ldScan : List ScriptTag → Except PyErr (Option Json)
  | [] => .ok none
  | s :: ss =>
      if s.text = "" then ldScan ss
      else
        match s.json with
        | none => ldScan ss
        | some data =>
            match findOrgInCandidates (ldCandidates data) with
            | .error e => .error e
            | .ok (some o) => .ok (some o)
            | .ok none => ldScan ss

/-- `DealroomExtractor._extract_ld_organization`: locate the first JSON-LD
block describing an organization. -/
def extract_ld_organization (doc : HtmlDoc) : Except PyErr (Option Json) :=
  ldScan (doc.scripts.filter (fun s => s.typeAttr == some "application/ld+json"))

/-- Python `d.setdefault(k, v)` on an insertion-ordered string dict:
append `(k, v)` only when `k` is absent. -/
def setdefault (k v : String) (m : List (String × String)) : List (String × String) :=
  if (m.lookup k).isSome then m else m ++ [(k, v)]

/-- `DealroomExtractor._assign_social_link`: classify an href by substring
match on its lowercased form.  The singular fields (`linkedin_url`,
`twitter_url`, `instagram_url`) are assigned unconditionally; the
`social_links` dict entry is written through `setdefault`. -/
def assign_social_link (href : String) (r : CompanyRecord) : CompanyRecord :=
  let hl := lowerStr href
  if pyIn "linkedin.com" hl then
    { r with linkedin_url := some href,
             social_links := setdefault "linkedin" href r.social_links }
  else if pyIn "twitter.com" hl || pyIn "x.com" hl then
    { r with twitter_url := some href,
             social_links := setdefault "twitter" href r.social_links }
  else if pyIn "instagram.com" hl then
    { r with instagram_url := some href,
             social_links := setdefault "instagram" href r.social_links }
  else if pyIn "facebook.com" hl then
    { r with social_links := setdefault "facebook" href r.social_links }
  else if pyIn "youtube.com" hl || pyIn "youtu.be" hl then
    { r with social_links := setdefault "youtube" href r.social_links }
  else r

/-- The website computation of `_populate_from_ld_json`:
`url = ld.get("url") or ld.get("sameAs") or None`; when that is a list,
the first string entry starting with `http` replaces it; the record field
is set only when the result is a string. -/
def websiteFromLd (ld : Json) : Option String :=
  let url := pyOr (ld.get "url") (pyOr (ld.get "sameAs") Json.null)
  let url2 := match url with
    | .arr cs =>
        match cs.find? (fun (c : Json) => match c with
          | Json.str s => pyStartsWith s "http"
          | _ => false) with
        | some c => c
        | none => .arr cs
    | v => v
  match url2 with
  | .str s => some s
  | _ => none

/-- The industries computation of `_populate_from_ld_json`: flatten a
string-or-list `industry` field, stringifying list entries. -/
def industriesFromLd (ld : Json) : List String :=
  match ld.get "industry" with
  | .arr xs => xs.map pyStr
  | .str s => [s]
  | _ => []

/-- The employees lookup of `_populate_from_ld_json`:
`ld.get("numberOfEmployees") or ld.get("employee", {}).get("count")`.
When `numberOfEmployees` is falsy and `employee` is present but not a
dict, the `.get("count")` call raises `AttributeError`. -/
def employeesValue (ld : Json) : Except PyErr Json :=
  let e1 := ld.get "numberOfEmployees"
  if truthy e1 then .ok e1
  else
    match (ld.find? "employee").getD (Json.obj []) with
    | .obj kvs => .ok ((Json.obj kvs).get "count")
    | _ => .error .attributeError

/-- The employees assignment of `_populate_from_ld_json`: numeric values
(including booleans, which Python's `isinstance(x, int)` accepts) are cast
through `int` then `str`; strings are kept; anything else leaves the field
unchanged. -/
def applyEmployees (e : Json) (r : CompanyRecord) : CompanyRecord :=
  match e with
  | .num n => { r with employees := some (toString n) }
  | .bool b => { r with employees := some (if b then "1" else "0") }
  | .str s => { r with employees := some s }
  | _ => r

/-- The `sameAs` link list of `_populate_from_ld_json`: the list itself
when `sameAs` is a list, a singleton when it is a string, empty otherwise;
every entry is passed through `str()`. -/
def sameAsLinks (ld : Json) : List String :=
  match ld.get "sameAs" with
  | .arr xs => xs.map pyStr
  | .str s => [s]
  | _ => []

/-- The `about` assignment of `_populate_from_ld_json`:
`record.about = ld.get("description") or record.about`. -/
def ldAboutUpdate (ld : Json) (r : CompanyRecord) : CompanyRecord :=
  { r with about := pyOr (ld.get "description") r.about }

/-- The website assignment of `_populate_from_ld_json`: set only when the
computed url value is a string. -/
def ldWebsiteUpdate (ld : Json) (r : CompanyRecord) : CompanyRecord :=
  match websiteFromLd ld with
  | some s => { r with website_url := some s }
  | none => r

/-- The industries merge of `_populate_from_ld_json`:
`sorted(set(record.industries + industries))` when any were found. -/
def ldIndustriesUpdate (ld : Json) (r : CompanyRecord) : CompanyRecord :=
  if (industriesFromLd ld).isEmpty then r
  else { r with industries :=
          sortStrings (dedupStrings (r.industries ++ industriesFromLd ld)) }

/-- `DealroomExtractor._populate_from_ld_json`: populate `about`,
`website_url`, `industries`, `employees` and the social links from the
located JSON-LD organization dict, in source order.  The employees lookup
(the only raising step) does not read the record, so it is matched first;
on error the Python call site propagates the exception and the partial
record mutations are unobservable. -/
def populate_from_ld_json (ld : Json) (r : CompanyRecord) : Except PyErr CompanyRecord :=
  match employeesValue ld with
  | .error e => .error e
  | .ok e =>
      .ok ((sameAsLinks ld).foldl (fun acc l => assign_social_link l acc)
        (applyEmployees e (ldIndustriesUpdate ld (ldWebsiteUpdate ld (ldAboutUpdate ld r)))))

/-- `DealroomExtractor._populate_social_links`: feed every anchor href, in
document order, through the social-link classifier. -/
def populate_social_links (doc : HtmlDoc) (r : CompanyRecord) : CompanyRecord :=
  doc.anchorHrefs.foldl (fun acc h => assign_social_link h acc) r

/-- Truthiness of an `Optional[str]` field (`None` and `""` are falsy). -/
def optStrTruthy : Option String → Bool
  | none => false
  | some s => s != ""

/-- Truthiness of a found-element attribute: the element must exist and
its attribute must be present and non-empty. -/
def attrTruthy : Option (Option String) → Option String
  | some (some c) => if c = "" then none else some c
  | _ => none

/-- The description block of `_populate_meta_fallbacks`: when `about` is
falsy, fall back to the `description` meta tag (or, only when that
element is absent, the `og:description` meta tag), stripping the
content. -/
def aboutFallback (doc : HtmlDoc) (r : CompanyRecord) : CompanyRecord :=
  if truthy r.about then r
  else
    match attrTruthy (match doc.metaDescContent with
                      | some a => some a
                      | none => doc.metaOgDescContent) with
    | some c => { r with about := Json.str (pyStrip c) }
    | none => r

/-- The website block of `_populate_meta_fallbacks`: when `website_url`
is falsy, fall back to the canonical link href, else the `og:url` meta
content. -/
def websiteFallback (doc : HtmlDoc) (r : CompanyRecord) : CompanyRecord :=
  if optStrTruthy r.website_url then r
  else
    match attrTruthy doc.canonicalHref with
    | some h => { r with website_url := some h }
    | none =>
        match attrTruthy doc.metaOgUrlContent with
        | some c => { r with website_url := some c }
        | none => r

/-- `DealroomExtractor._populate_meta_fallbacks`: the description block
followed by the website block. -/
def populate_meta_fallbacks (doc : HtmlDoc) (r : CompanyRecord) : CompanyRecord :=
  websiteFallback doc (aboutFallback doc r)

/-- The ordered keyword/stage pairs of `_populate_status_and_stage`, in
the source's list order. -/
def stage_keywords : List (String × String) :=
  [("seed", "seed"),
   ("series a", "early growth"),
   ("series b", "growth"),
   ("series c", "late growth"),
   ("series d", "late growth"),
   ("pre-seed", "pre-seed"),
   ("early stage", "early growth"),
   ("late stage", "late growth"),
   ("scaleup", "scaleup")]

/-- First keyword pair whose keyword occurs in the text, in list order. -/
def firstStage (text : String) : List (String × String) → Option String
  | [] => none
  | (k, st) :: rest => if pyIn k text then some st else firstStage text rest

/-- The status block of `_populate_status_and_stage`: priority keyword
match on the lowercased text, with `operational` as the optimistic
default. -/
def statusUpdate (text : String) (r : CompanyRecord) : CompanyRecord :=
  if r.company_status.isNone then
    if pyIn "closed" text || pyIn "defunct" text then
      { r with company_status := some "closed" }
    else if pyIn "acquired" text then
      { r with company_status := some "acquired" }
    else if pyIn "ipo" text then
      { r with company_status := some "public" }
    else
      { r with company_status := some "operational" }
  else r

/-- The stage block of `_populate_status_and_stage`: first matching
keyword pair, in list order. -/
def stageUpdate (text : String) (r : CompanyRecord) : CompanyRecord :=
  if r.growth_stage.isNone then
    match firstStage text stage_keywords with
    | some st => { r with growth_stage := some st }
    | none => r
  else r

/-- `DealroomExtractor._populate_status_and_stage`: classify status and
growth stage by keyword search over the lowercased visible text. -/
def populate_status_and_stage (doc : HtmlDoc) (r : CompanyRecord) : CompanyRecord :=
  stageUpdate (lowerStr doc.visibleText) (statusUpdate (lowerStr doc.visibleText) r)

/-- The normalized funding-round dict built inside
`_walk_for_funding_and_investors`, with the source's `or`-chains of
field-name synonyms. -/
def cleanRound (fr : Json) : FundingRound :=
  { year := pyOr (fr.get "year") (pyOr (fr.get "date") (fr.get "round_year")),
    round := pyOr (fr.get "round") (fr.get "type"),
    amount := pyOr (fr.get "amount") (fr.get "raised"),
    currency := pyOr (fr.get "currency") (fr.get "currency_code"),
    investors := pyOr (fr.get "investors") (Json.arr []) }

/-- The normalized investor dict built inside
`_walk_for_funding_and_investors`. -/
def cleanInvestor (inv : Json) : InvestorEntry :=
  { name := inv.get "name",
    type := inv.get "type",
    path := pyOr (inv.get "path") (inv.get "slug") }

/-- The funding rounds harvested at one dict node: present when the node
has a `funding_rounds` key holding a list; non-dict list elements are
skipped. -/
def nodeRounds (kvs : List (String × Json)) : List FundingRound :=
  match (Json.obj kvs).find? "funding_rounds" with
  | some (Json.arr frs) =>
      frs.filterMap (fun (x : Json) => match x with
        | Json.obj o => some (cleanRound (Json.obj o))
        | _ => none)
  | _ => []

/-- The investors harvested at one dict node: present when the node has an
`investors` key holding a list; non-dict list elements are skipped. -/
def nodeInvestors (kvs : List (String × Json)) : List InvestorEntry :=
  match (Json.obj kvs).find? "investors" with
  | some (Json.arr invs) =>
      invs.filterMap (fun (x : Json) => match x with
        | Json.obj o => some (cleanInvestor (Json.obj o))
        | _ => none)
  | _ => []

mutual
/-- `DealroomExtractor._walk_for_funding_and_investors`: depth-first walk
of a parsed payload, collecting normalized funding rounds and investors in
traversal order.  The Python walk appends to the record's two list
fields; the model returns the appended entries. -/
def walkFI : Json → List FundingRound × List InvestorEntry
  | .obj kvs =>
      let rest := walkFIKvs kvs
      (nodeRounds kvs ++ rest.1, nodeInvestors kvs ++ rest.2)
  | .arr xs => walkFIList xs
  | _ => ([], [])
termination_by structural j => j

/-- Walk of the values of a dict node, in key insertion order. -/
def walkFIKvs : List (String × Json) → List FundingRound × List InvestorEntry
  | [] => ([], [])
  | (_, v) :: rest =>
      let a := walkFI v
      let b := walkFIKvs rest
      (a.1 ++ b.1, a.2 ++ b.2)
termination_by structural l => l

/-- Walk of the elements of a list node, in order. -/
def walkFIList : List Json → List FundingRound × List InvestorEntry
  | [] => ([], [])
  | x :: rest =>
      let a := walkFI x
      let b := walkFIList rest
      (a.1 ++ b.1, a.2 ++ b.2)
termination_by structural l => l
end

/-- One script step of `_populate_funding_and_investors`: skip scripts
with empty text, scripts whose raw text contains neither `funding` nor
`investor`, and unparsable payloads; otherwise walk the payload. -/
def scriptStepFI (acc : List FundingRound × List InvestorEntry) (s : ScriptTag) :
    List FundingRound × List InvestorEntry :=
  if s.text = "" then acc
  else if !pyIn "funding" s.text && !pyIn "investor" s.text then acc
  else
    match s.json with
    | none => acc
    | some data =>
        let w := walkFI data
        (acc.1 ++ w.1, acc.2 ++ w.2)

/-- The record's funding-round and investor lists after the script scan of
`_populate_funding_and_investors`, before deduplication. -/
def collectFI (doc : HtmlDoc) (r : CompanyRecord) :
    List FundingRound × List InvestorEntry :=
  doc.scripts.foldl scriptStepFI (r.funding_rounds, r.investors)

/-- The deduplication key of a funding round:
`(fr.get("year"), fr.get("round"), fr.get("amount"), fr.get("currency"))`. -/
def roundKey (fr : FundingRound) : Json × Json × Json × Json :=
  (fr.year, fr.round, fr.amount, fr.currency)

/-- Hashability of a funding-round key: Python raises `TypeError` when any
tuple component is a list or dict. -/
def roundKeyHashable (fr : FundingRound) : Bool :=
  hashableJson fr.year && hashableJson fr.round &&
    hashableJson fr.amount && hashableJson fr.currency

/-- The funding-round deduplication loop of
`_populate_funding_and_investors`, with the seen-key set as a list.
Evaluating `key in seen_rounds` hashes the key first, raising `TypeError`
on unhashable components. -/
def dedupRoundsGo : List FundingRound → List (Json × Json × Json × Json) →
    Except PyErr (List FundingRound)
  | [], _ => .ok []
  | fr :: rest, seen =>
      if !roundKeyHashable fr then .error .typeError
      else if roundKey fr ∈ seen then dedupRoundsGo rest seen
      else
        match dedupRoundsGo rest (roundKey fr :: seen) with
        | .error e => .error e
        | .ok out => .ok (fr :: out)

/-- Deduplication of the harvested funding rounds by their
`(year, round, amount, currency)` key, first occurrence kept. -/
def dedupRounds (frs : List FundingRound) : Except PyErr (List FundingRound) :=
  dedupRoundsGo frs []

/-- The investor deduplication loop of `_populate_funding_and_investors`:
entries with falsy names are dropped without hashing; hashing a truthy
unhashable name raises `TypeError`; otherwise the first entry per name is
kept. -/
def dedupInvestorsGo : List InvestorEntry → List Json →
    Except PyErr (List InvestorEntry)
  | [], _ => .ok []
  | inv :: rest, seen =>
      if !truthy inv.name then dedupInvestorsGo rest seen
      else if !hashableJson inv.name then .error .typeError
      else if inv.name ∈ seen then dedupInvestorsGo rest seen
      else
        match dedupInvestorsGo rest (inv.name :: seen) with
        | .error e => .error e
        | .ok out => .ok (inv :: out)

/-- Deduplication of the harvested investors by name, first occurrence
kept, nameless entries dropped. -/
def dedupInvestors (invs : List InvestorEntry) : Except PyErr (List InvestorEntry) :=
  dedupInvestorsGo invs []

/-- `DealroomExtractor._populate_funding_and_investors`: scan every script
block for funding payloads, then deduplicate rounds and investors. -/
def populate_funding_and_investors (doc : HtmlDoc) (r : CompanyRecord) :
    Except PyErr CompanyRecord :=
  match dedupRounds (collectFI doc r).1 with
  | .error e => .error e
  | .ok ur =>
      match dedupInvestors (collectFI doc r).2 with
      | .error e => .error e
      | .ok ui => .ok { r with funding_rounds := ur, investors := ui }

/-- The location built at one dict node of `_walk_for_locations`, when the
node's `address` value is a dict and either component is truthy. -/
def nodeLocation (addr : Json) : List HqLocation :=
  match addr with
  | Json.obj akvs =>
      let address := pyOr ((Json.obj akvs).get "streetAddress")
        (pyOr ((Json.obj akvs).get "address") ((Json.obj akvs).get "full"))
      let country := pyOr ((Json.obj akvs).get "addressCountry")
        ((Json.obj akvs).get "country")
      if truthy address || truthy country then
        [{ address := address, country := country }]
      else []
  | _ => []

mutual
/-- `DealroomExtractor._walk_for_locations`: depth-first walk collecting
location entries in traversal order. -/
def walkLoc : Json → List HqLocation
  | .obj kvs => nodeLocation ((Json.obj kvs).get "address") ++ walkLocKvs kvs
  | .arr xs => walkLocList xs
  | _ => []
termination_by structural j => j

/-- Walk of the values of a dict node, in key insertion order. -/
def walkLocKvs : List (String × Json) → List HqLocation
  | [] => []
  | (_, v) :: rest => walkLoc v ++ walkLocKvs rest
termination_by structural l => l

/-- Walk of the elements of a list node, in order. -/
def walkLocList : List Json → List HqLocation
  | [] => []
  | x :: rest => walkLoc x ++ walkLocList rest
termination_by structural l => l
end

/-- One script step of `_populate_locations`: skip scripts with empty text
or without the substring `address`, and unparsable payloads. -/
def scriptStepLoc (acc : List HqLocation) (s : ScriptTag) : List HqLocation :=
  if s.text = "" then acc
  else if !pyIn "address" s.text then acc
  else
    match s.json with
    | none => acc
    | some data => acc ++ walkLoc data

/-- The location deduplication loop of `_populate_locations`, keyed by the
`(address, country)` pair; hashing raises `TypeError` on unhashable
components. -/
def dedupLocationsGo : List HqLocation → List (Json × Json) →
    Except PyErr (List HqLocation)
  | [], _ => .ok []
  | loc :: rest, seen =>
      if !(hashableJson loc.address && hashableJson loc.country) then .error .typeError
      else if (loc.address, loc.country) ∈ seen then dedupLocationsGo rest seen
      else
        match dedupLocationsGo rest ((loc.address, loc.country) :: seen) with
        | .error e => .error e
        | .ok out => .ok (loc :: out)

/-- The record's location list after the script scan of
`_populate_locations`, before deduplication. -/
def collectLoc (doc : HtmlDoc) (r : CompanyRecord) : List HqLocation :=
  doc.scripts.foldl scriptStepLoc r.hq_locations

/-- `DealroomExtractor._populate_locations`: scan every script block for
address payloads, then deduplicate by `(address, country)`. -/
def populate_locations (doc : HtmlDoc) (r : CompanyRecord) :
    Except PyErr CompanyRecord :=
  match dedupLocationsGo (collectLoc doc r) [] with
  | .error e => .error e
  | .ok ul => .ok { r with hq_locations := ul }

/-- The record-building passes of `extract_company_data`, applied to the
fresh record after the JSON-LD block has been located: the optional
JSON-LD populator, then the social-link, meta-fallback, status/stage,
funding/investor and location passes, in source order. -/
def recordPipeline (doc : HtmlDoc) (ldo : Option Json) (r : CompanyRecord) :
    Except PyErr CompanyRecord :=
  match (match ldo with
         | some ld => populate_from_ld_json ld r
         | none => .ok r) with
  | .error e => .error e
  | .ok r =>
      match populate_funding_and_investors doc
          (populate_status_and_stage doc
            (populate_meta_fallbacks doc (populate_social_links doc r))) with
      | .error e => .error e
      | .ok r =>
          match populate_locations doc r with
          | .error e => .error e
          | .ok r => .ok r

/-- `DealroomExtractor.extract_company_data`: the full extraction
pipeline, from a parsed document and optional source URL to the cleaned
output mapping. -/
def extract_company_data (doc : HtmlDoc) (source_url : Option String) :
    Except PyErr (List (String × Json)) :=
  match extract_ld_organization doc with
  | .error e => .error e
  | .ok ldo =>
      match recordPipeline doc ldo { raw_source_url := source_url } with
      | .error e => .error e
      | .ok r => .ok r.to_dict

/-- The `DealroomExtractor` class: it has no instance attributes and no
class-level mutable state, so it is modelled by a fieldless structure. -/
structure DealroomExtractor where

/-- The `extract_company_data` method, reading nothing from `self`. -/
def DealroomExtractor.extract (_ : DealroomExtractor) (doc : HtmlDoc)
    (source_url : Option String) : Except PyErr (List (String × Json)) :=
  extract_company_data doc source_url

theorem listStartsWith_iff (ps : List Char) : ∀ hs,
    listStartsWith ps hs = true ↔ ∃ t, hs = ps ++ t := by
  induction ps with
  | nil => intro hs; simp [listStartsWith]
  | cons p ps ih =>
      intro hs
      cases hs with
      | nil => simp [listStartsWith]
      | cons h hs =>
          simp only [listStartsWith, Bool.and_eq_true, beq_iff_eq, ih,
            List.cons_append, List.cons.injEq]
          constructor
          · rintro ⟨rfl, t, rfl⟩
            exact ⟨t, rfl, rfl⟩
          · rintro ⟨t, rfl, rfl⟩
            exact ⟨rfl, t, rfl⟩

theorem listHasSub_iff (ps : List Char) : ∀ hs,
    listHasSub ps hs = true ↔ ∃ l t, hs = l ++ ps ++ t := by
  intro hs
  induction hs with
  | nil =>
      simp only [listHasSub, List.isEmpty_iff]
      constructor
      · rintro rfl
        exact ⟨[], [], rfl⟩
      · rintro ⟨l, t, ht⟩
        rcases List.append_eq_nil.mp (List.append_eq_nil.mp ht.symm).1 with ⟨_, h2⟩
        exact h2
  | cons h hs ih =>
      simp only [listHasSub, Bool.or_eq_true, listStartsWith_iff, ih]
      constructor
      · rintro (⟨t, ht⟩ | ⟨l, t, ht⟩)
        · exact ⟨[], t, by simpa using ht⟩
        · exact ⟨h :: l, t, by simp [ht]⟩
      · rintro ⟨l, t, ht⟩
        cases l with
        | nil => exact Or.inl ⟨t, by simpa using ht⟩
        | cons a l =>
            simp only [List.cons_append] at ht
            injection ht with h1 h2
            exact Or.inr ⟨l, t, h2⟩

theorem pyIn_iff (p s : String) :
    pyIn p s = true ↔ ∃ l t, s.data = l ++ p.data ++ t := by
  simp [pyIn, listHasSub_iff]

/-- Substring containment is inherited by any contiguous piece of the
needle. -/
theorem pyIn_of_within (p q s : String) (u v : List Char)
    (hpq : p.data = u ++ q.data ++ v) (h : pyIn p s = true) :
    pyIn q s = true := by
  rcases (pyIn_iff p s).mp h with ⟨l, t, hs⟩
  refine (pyIn_iff q s).mpr ⟨l ++ u, v ++ t, ?_⟩
  rw [hs, hpq]
  simp [List.append_assoc]

/-- Lowercasing preserves containment of an all-lowercase needle. -/
theorem pyIn_lowerStr (p s : String)
    (hp : p.data.map Char.toLower = p.data) (h : pyIn p s = true) :
    pyIn p (lowerStr s) = true := by
  rcases (pyIn_iff p s).mp h with ⟨l, t, hs⟩
  refine (pyIn_iff p (lowerStr s)).mpr
    ⟨l.map Char.toLower, t.map Char.toLower, ?_⟩
  show (s.data.map Char.toLower) = _
  rw [hs]
  simp only [List.map_append, hp]

theorem statusUpdate_growth (text : String) (r : CompanyRecord) :
    (statusUpdate text r).growth_stage = r.growth_stage := by
  unfold statusUpdate
  split
  · split
    · rfl
    · split
      · rfl
      · split <;> rfl
  · rfl

theorem stageUpdate_status (text : String) (r : CompanyRecord) :
    (stageUpdate text r).company_status = r.company_status := by
  unfold stageUpdate
  split
  · split <;> rfl
  · rfl

theorem orgTypeMatchList_strings (ts : List String) :
    orgTypeMatchList (ts.map Json.str) =
      .ok (ts.any (fun t => ["organization", "corp", "corporation"].contains (lowerStr t))) := by
  induction ts with
  | nil => rfl
  | cons t ts ih =>
      cases hc : ["organization", "corp", "corporation"].contains (lowerStr t) with
      | true =>
          simp only [List.map_cons, orgTypeMatchList, hc, eq_self_iff_true, if_true,
            List.any_cons, Bool.true_or]
      | false =>
          simp only [List.map_cons, orgTypeMatchList, hc, Bool.false_eq_true, if_false,
            List.any_cons, Bool.false_or, ih]

/-- C2 counterexample: a JSON-LD block whose `@type` is the list
`["Company"]` is NOT accepted by the structured-metadata locator — the
list branch of the type test omits `company`, so the scan returns no
organization.  The claim asserts this block is accepted. -/
theorem ld_list_company_type_rejected :
    extract_ld_organization
      { scripts := [{ typeAttr := some "application/ld+json",
                      text := "\x7b\"@type\": [\"Company\"]\x7d",
                      json := some (Json.obj [("@type", Json.arr [Json.str "Company"])]) }] } =
    .ok none := by
  rfl

/-- C2 (corrected): the acceptance rule of the structured-metadata
locator is asymmetric between the two shapes of the `@type` field.  A
list-valued type is accepted exactly when some entry lowercases into
`organization`, `corp` or `corporation` (`company` is NOT accepted in
list position), while a string-valued type is accepted exactly when it
lowercases into `organization`, `corp`, `corporation` or `company`. -/
theorem ld_type_acceptance_characterization (ts : List String) (s : String) :
    isOrgCandidate (Json.obj [("@type", Json.arr (ts.map Json.str))]) =
      .ok (ts.any (fun t => ["organization", "corp", "corporation"].contains (lowerStr t))) ∧
    isOrgCandidate (Json.obj [("@type", Json.str s)]) =
      .ok (["organization", "corp", "corporation", "company"].contains (lowerStr s)) := by
  constructor
  · show orgTypeMatchList (ts.map Json.str) = _
    exact orgTypeMatchList_strings ts
  · rfl

/-- C3 counterexample: for the document whose visible text is exactly
`pre-seed`, the resolved growth stage is `seed`, not `pre-seed` — the
source's keyword list begins with `("seed", "seed")` and `seed` is a
substring of `pre-seed`.  The claim asserts the resolved stage would be
`pre-seed`. -/
theorem preseed_text_yields_seed_stage :
    extract_company_data { visibleText := "pre-seed" } none =
    .ok [("company_status", Json.str "operational"),
         ("growth_stage", Json.str "seed")] := by
  rfl

/-- C3 (corrected): the growth-stage classifier scans the pairs in the
source's order `seed, series a, series b, series c, series d, pre-seed,
early stage, late stage, scaleup` and takes the first match; since every
text containing `pre-seed` also contains `seed`, any document whose
visible text contains `pre-seed` resolves to growth stage `seed` (the
`pre-seed` label is unreachable). -/
theorem growth_stage_seed_shadows_preseed (doc : HtmlDoc) (r : CompanyRecord)
    (hgs : r.growth_stage = none)
    (h : pyIn "pre-seed" doc.visibleText = true) :
    (populate_status_and_stage doc r).growth_stage = some "seed" := by
  have hlow : pyIn "pre-seed" (lowerStr doc.visibleText) = true :=
    pyIn_lowerStr _ _ (by decide) h
  have hseed : pyIn "seed" (lowerStr doc.visibleText) = true :=
    pyIn_of_within "pre-seed" "seed" _ (['p', 'r', 'e', '-']) [] (by decide) hlow
  unfold populate_status_and_stage
  unfold stageUpdate
  rw [statusUpdate_growth, hgs]
  simp only [Option.isNone_none, if_true]
  simp [firstStage, stage_keywords, hseed]

/-- Witness for the corrected C3 theorem at a concrete document. -/
theorem growth_stage_seed_shadows_preseed_witness :
    (populate_status_and_stage
      { visibleText := "Raised a pre-seed round in 2021" } {}).growth_stage = some "seed" :=
  growth_stage_seed_shadows_preseed
    { visibleText := "Raised a pre-seed round in 2021" } {} rfl (by decide)

/-- C9: status keyword matching is plain substring matching on the
lowercased visible text, not word matching: any document whose visible
text contains the character sequence `closed` — also inside a longer word
such as `disclosed` — is classified with company status `closed`. -/
theorem status_closed_plain_substring (doc : HtmlDoc) (r : CompanyRecord)
    (hst : r.company_status = none)
    (h : pyIn "closed" doc.visibleText = true) :
    (populate_status_and_stage doc r).company_status = some "closed" := by
  have h2 : pyIn "closed" (lowerStr doc.visibleText) = true :=
    pyIn_lowerStr _ _ (by decide) h
  unfold populate_status_and_stage
  rw [stageUpdate_status]
  unfold statusUpdate
  simp [hst, h2]

/-- Witness for C9 at a concrete document whose text contains `closed`
only inside the word `undisclosed`. -/
theorem status_closed_plain_substring_witness :
    (populate_status_and_stage
      { visibleText := "Total amount raised undisclosed" } {}).company_status = some "closed" :=
  status_closed_plain_substring
    { visibleText := "Total amount raised undisclosed" } {} rfl (by decide)
theorem lookup_append_of_none {k : String} {m m2 : List (String × String)}
    (h : m.lookup k = none) : (m ++ m2).lookup k = m2.lookup k := by
  induction m with
  | nil => rfl
  | cons kv m ih =>
      rcases kv with ⟨k1, v1⟩
      rcases eq_or_ne k k1 with heq | hne
      · subst heq
        simp [List.lookup] at h
      · have hb : (k == k1) = false := beq_false_of_ne hne
        simp only [List.cons_append, List.lookup, hb] at h ⊢
        exact ih h

theorem lookup_setdefault_isSome (k v : String) (m : List (String × String)) :
    ((setdefault k v m).lookup k).isSome = true := by
  unfold setdefault
  split
  · assumption
  · rename_i hnot
    have hnone : m.lookup k = none := by
      cases h : m.lookup k with
      | none => rfl
      | some x => rw [h] at hnot; simp at hnot
    rw [lookup_append_of_none hnone]
    simp [List.lookup]

theorem setdefault_of_isSome (k v : String) (m : List (String × String))
    (h : (m.lookup k).isSome = true) : setdefault k v m = m := by
  unfold setdefault
  rw [if_pos h]

theorem setdefault_setdefault (k v w : String) (m : List (String × String)) :
    setdefault k v (setdefault k w m) = setdefault k w m :=
  setdefault_of_isSome k v _ (lookup_setdefault_isSome k w m)

theorem assign_linkedin (href : String) (r : CompanyRecord)
    (h : pyIn "linkedin.com" (lowerStr href) = true) :
    assign_social_link href r =
      { r with linkedin_url := some href,
               social_links := setdefault "linkedin" href r.social_links } := by
  unfold assign_social_link
  simp [h]

theorem fold_assign_linkedin : ∀ (hs : List String) (x : String) (r : CompanyRecord),
    (∀ s ∈ x :: hs, pyIn "linkedin.com" (lowerStr s) = true) →
    ((x :: hs).foldl (fun acc h => assign_social_link h acc) r).linkedin_url
        = some ((x :: hs).getLast (List.cons_ne_nil x hs)) ∧
    ((x :: hs).foldl (fun acc h => assign_social_link h acc) r).social_links
        = setdefault "linkedin" x r.social_links := by
  intro hs
  induction hs with
  | nil =>
      intro x r hall
      have hx := hall x (List.mem_cons_self x [])
      rw [List.foldl_cons, List.foldl_nil, assign_linkedin x r hx]
      exact ⟨rfl, rfl⟩
  | cons y rest ih =>
      intro x r hall
      have hx := hall x (List.mem_cons_self x _)
      have hall2 : ∀ s ∈ y :: rest, pyIn "linkedin.com" (lowerStr s) = true := by
        intro s hsmem
        exact hall s (List.mem_cons_of_mem x hsmem)
      have step : (x :: y :: rest).foldl (fun acc h => assign_social_link h acc) r
          = (y :: rest).foldl (fun acc h => assign_social_link h acc) (assign_social_link x r) := by
        rw [List.foldl_cons]
      rcases ih y (assign_social_link x r) hall2 with ⟨h1, h2⟩
      constructor
      · rw [step, h1, List.getLast_cons_cons]
      · rw [step, h2, assign_linkedin x r hx]
        exact setdefault_setdefault "linkedin" y x r.social_links

/-- C4 counterexample: fed two LinkedIn hrefs through the anchor pass, the
singular `linkedin_url` equals the SECOND (last) matching href while the
`social_links` entry keeps the first, so the singular field does not
mirror the set-once dict value.  The claim asserts the singular field
equals the first matching href. -/
theorem singular_linkedin_not_first_match :
    extract_company_data
      { anchorHrefs := ["https://linkedin.com/company/first",
                        "https://linkedin.com/company/second"] } none =
    .ok [("company_status", Json.str "operational"),
         ("social_links", Json.obj [("linkedin", Json.str "https://linkedin.com/company/first")]),
         ("linkedin_url", Json.str "https://linkedin.com/company/second")] := by
  rfl

/-- C4 (corrected): when the social-link classifier is fed a non-empty
sequence of LinkedIn hrefs, the singular `linkedin_url` field equals the
LAST matching href (the source assigns it unconditionally on every
match), while the `linkedin` key of `social_links` is written set-once
and keeps the FIRST matching href. -/
theorem social_singular_last_dict_first (x : String) (hs : List String)
    (r : CompanyRecord)
    (hall : ∀ s ∈ x :: hs, pyIn "linkedin.com" (lowerStr s) = true) :
    (populate_social_links { anchorHrefs := x :: hs } r).linkedin_url
        = some ((x :: hs).getLast (List.cons_ne_nil x hs)) ∧
    (populate_social_links { anchorHrefs := x :: hs } r).social_links
        = setdefault "linkedin" x r.social_links := by
  unfold populate_social_links
  exact fold_assign_linkedin hs x r hall

/-- Witness for the corrected C4 theorem at two concrete hrefs. -/
theorem social_singular_last_dict_first_witness :
    (populate_social_links
      { anchorHrefs := ["https://linkedin.com/company/first",
                        "https://linkedin.com/company/second"] } {}).linkedin_url
        = some "https://linkedin.com/company/second" ∧
    (populate_social_links
      { anchorHrefs := ["https://linkedin.com/company/first",
                        "https://linkedin.com/company/second"] } {}).social_links
        = [("linkedin", "https://linkedin.com/company/first")] :=
  social_singular_last_dict_first "https://linkedin.com/company/first"
    ["https://linkedin.com/company/second"] {} (by decide)

/-- C1 (code bug): `extract_company_data` is not exception-free.  For the
HTML document carrying the single JSON-LD script
`{"@type": [1]}` (a well-formed payload whose `@type` list holds a
number), the generator `t.lower()` inside `_extract_ld_organization` is
evaluated on an `int` and raises `AttributeError`, which no handler
catches — contradicting the never-raises contract.  The minimal-record
half of the claim does hold: on a document with no recognizable data the
output has exactly `company_status = "operational"` and the echoed
`raw_source_url`. -/
theorem extract_raises_on_nonstring_ld_type :
    extract_company_data
      { scripts := [{ typeAttr := some "application/ld+json",
                      text := "\x7b\"@type\": [1]\x7d",
                      json := some (Json.obj [("@type", Json.arr [Json.num 1])]) }] }
      (some "https://example.com") = .error .attributeError ∧
    extract_company_data { visibleText := "No data Empty page" }
      (some "https://example.com/empty") =
      .ok [("company_status", Json.str "operational"),
           ("raw_source_url", Json.str "https://example.com/empty")] :=
  ⟨rfl, rfl⟩

/-- C8: the extractor is a pure function of its two inputs — any two
invocations, on any two `DealroomExtractor` instances (the class holds no
instance or class state), with the same parsed document and the same
source URL return equal results. -/
theorem extractor_deterministic (e1 e2 : DealroomExtractor) (doc : HtmlDoc)
    (url : Option String) :
    e1.extract doc url = e2.extract doc url := rfl
/-- Specification-side deduplication of investors, following the spec's
words: the first occurrence per name wins, entries whose name is missing
or empty are dropped, and relative order among kept entries is
preserved. -/
def specDedupInvestors : List InvestorEntry → List InvestorEntry
  | [] => []
  | inv :: rest =>
      if truthy inv.name then
        inv :: specDedupInvestors (rest.filter (fun j => decide (j.name ≠ inv.name)))
      else specDedupInvestors rest
termination_by l => l.length
decreasing_by all_goals
  simp only [List.length_cons]
  first
    | exact Nat.lt_succ_of_le (List.length_filter_le _ _)
    | exact Nat.lt_succ_of_le (Nat.le_refl _)

theorem dedupInvestorsGo_eq_spec : ∀ (invs : List InvestorEntry) (seen : List Json),
    (∀ inv ∈ invs, truthy inv.name = true → hashableJson inv.name = true) →
    dedupInvestorsGo invs seen =
      .ok (specDedupInvestors (invs.filter (fun j => decide (j.name ∉ seen)))) := by
  intro invs
  induction invs with
  | nil =>
      intro seen hh
      simp [dedupInvestorsGo, specDedupInvestors]
  | cons inv rest ih =>
      intro seen hh
      have hrest : ∀ i ∈ rest, truthy i.name = true → hashableJson i.name = true :=
        fun i hi => hh i (List.mem_cons_of_mem inv hi)
      cases ht : truthy inv.name with
      | false =>
          by_cases hmem : inv.name ∈ seen
          · simp [dedupInvestorsGo, ht, ih seen hrest, List.filter_cons, hmem]
          · simp [dedupInvestorsGo, ht, ih seen hrest, List.filter_cons, hmem,
              specDedupInvestors]
      | true =>
          have hhash : hashableJson inv.name = true := hh inv (List.mem_cons_self _ _) ht
          by_cases hmem : inv.name ∈ seen
          · simp [dedupInvestorsGo, ht, hhash, ih seen hrest, List.filter_cons, hmem]
          · have hfilters : rest.filter (fun j => decide (j.name ∉ inv.name :: seen)) =
                (rest.filter (fun j => decide (j.name ∉ seen))).filter
                  (fun j => decide (j.name ≠ inv.name)) := by
              rw [List.filter_filter]
              apply List.filter_congr
              intro j _
              simp [List.mem_cons, not_or, And.comm]
            simp [dedupInvestorsGo, ht, hhash, ih (inv.name :: seen) hrest,
              List.filter_cons, hmem, specDedupInvestors, hfilters]

theorem specDedupInvestors_sublist : ∀ l, (specDedupInvestors l).Sublist l
  | [] => by simp [specDedupInvestors]
  | inv :: rest => by
      simp only [specDedupInvestors]
      split
      · exact ((specDedupInvestors_sublist _).trans (List.filter_sublist _)).cons₂ _
      · exact (specDedupInvestors_sublist rest).cons _
termination_by l => l.length
decreasing_by all_goals
  simp only [List.length_cons]
  first
    | exact Nat.lt_succ_of_le (List.length_filter_le _ _)
    | exact Nat.lt_succ_of_le (Nat.le_refl _)

theorem specDedupInvestors_truthy : ∀ l, ∀ inv ∈ specDedupInvestors l, truthy inv.name = true
  | [] => by simp [specDedupInvestors]
  | inv :: rest => by
      simp only [specDedupInvestors]
      split
      · rename_i ht
        intro i hi
        rcases List.mem_cons.mp hi with rfl | hmem
        · exact ht
        · exact specDedupInvestors_truthy _ i hmem
      · exact specDedupInvestors_truthy rest
termination_by l => l.length
decreasing_by all_goals
  simp only [List.length_cons]
  first
    | exact Nat.lt_succ_of_le (List.length_filter_le _ _)
    | exact Nat.lt_succ_of_le (Nat.le_refl _)

theorem specDedupInvestors_names_nodup :
    ∀ l, ((specDedupInvestors l).map InvestorEntry.name).Nodup
  | [] => by simp [specDedupInvestors]
  | inv :: rest => by
      simp only [specDedupInvestors]
      split
      · simp only [List.map_cons, List.nodup_cons]
        constructor
        · intro hmem
          rcases List.mem_map.mp hmem with ⟨j, hj, hjeq⟩
          have hj2 : j ∈ rest.filter (fun j => decide (j.name ≠ inv.name)) :=
            (specDedupInvestors_sublist _).subset hj
          have hne := List.of_mem_filter hj2
          simp only [decide_eq_true_eq] at hne
          exact hne hjeq
        · exact specDedupInvestors_names_nodup _
      · exact specDedupInvestors_names_nodup rest
termination_by l => l.length
decreasing_by all_goals
  simp only [List.length_cons]
  first
    | exact Nat.lt_succ_of_le (List.length_filter_le _ _)
    | exact Nat.lt_succ_of_le (Nat.le_refl _)

/-- Specification-side deduplication of funding rounds, following the
spec's words: one entry per `(year, round, amount, currency)` key, first
occurrence kept, insertion order preserved. -/
def specDedupRounds : List FundingRound → List FundingRound
  | [] => []
  | fr :: rest =>
      fr :: specDedupRounds (rest.filter (fun g => decide (roundKey g ≠ roundKey fr)))
termination_by l => l.length
decreasing_by all_goals
  simp only [List.length_cons]
  first
    | exact Nat.lt_succ_of_le (List.length_filter_le _ _)
    | exact Nat.lt_succ_of_le (Nat.le_refl _)

theorem dedupRoundsGo_eq_spec : ∀ (frs : List FundingRound) (seen : List (Json × Json × Json × Json)),
    (∀ fr ∈ frs, roundKeyHashable fr = true) →
    dedupRoundsGo frs seen =
      .ok (specDedupRounds (frs.filter (fun g => decide (roundKey g ∉ seen)))) := by
  intro frs
  induction frs with
  | nil =>
      intro seen hh
      simp [dedupRoundsGo, specDedupRounds]
  | cons fr rest ih =>
      intro seen hh
      have hrest : ∀ g ∈ rest, roundKeyHashable g = true :=
        fun g hg => hh g (List.mem_cons_of_mem fr hg)
      have hhash : roundKeyHashable fr = true := hh fr (List.mem_cons_self _ _)
      by_cases hmem : roundKey fr ∈ seen
      · simp [dedupRoundsGo, hhash, ih seen hrest, List.filter_cons, hmem]
      · have hfilters : rest.filter (fun g => decide (roundKey g ∉ roundKey fr :: seen)) =
            (rest.filter (fun g => decide (roundKey g ∉ seen))).filter
              (fun g => decide (roundKey g ≠ roundKey fr)) := by
          rw [List.filter_filter]
          apply List.filter_congr
          intro g _
          simp [List.mem_cons, not_or, And.comm]
        simp [dedupRoundsGo, hhash, ih (roundKey fr :: seen) hrest,
          List.filter_cons, hmem, specDedupRounds, hfilters]

theorem specDedupRounds_sublist : ∀ l, (specDedupRounds l).Sublist l
  | [] => by simp [specDedupRounds]
  | fr :: rest => by
      simp only [specDedupRounds]
      exact ((specDedupRounds_sublist _).trans (List.filter_sublist _)).cons₂ _
termination_by l => l.length
decreasing_by all_goals
  simp only [List.length_cons]
  first
    | exact Nat.lt_succ_of_le (List.length_filter_le _ _)
    | exact Nat.lt_succ_of_le (Nat.le_refl _)

theorem specDedupRounds_keys_nodup :
    ∀ l, ((specDedupRounds l).map roundKey).Nodup
  | [] => by simp [specDedupRounds]
  | fr :: rest => by
      simp only [specDedupRounds]
      simp only [List.map_cons, List.nodup_cons]
      constructor
      · intro hmem
        rcases List.mem_map.mp hmem with ⟨g, hg, hgeq⟩
        have hg2 : g ∈ rest.filter (fun g => decide (roundKey g ≠ roundKey fr)) :=
          (specDedupRounds_sublist _).subset hg
        have hne := List.of_mem_filter hg2
        simp only [decide_eq_true_eq] at hne
        exact hne hgeq
      · exact specDedupRounds_keys_nodup _
termination_by l => l.length
decreasing_by all_goals
  simp only [List.length_cons]
  first
    | exact Nat.lt_succ_of_le (List.length_filter_le _ _)
    | exact Nat.lt_succ_of_le (Nat.le_refl _)

theorem specDedupRounds_covers :
    ∀ l, ∀ fr ∈ l, roundKey fr ∈ (specDedupRounds l).map roundKey
  | [] => by simp [specDedupRounds]
  | g :: rest => by
      intro fr hfr
      simp only [specDedupRounds, List.map_cons, List.mem_cons]
      rcases List.mem_cons.mp hfr with rfl | hmem
      · exact Or.inl rfl
      · by_cases hk : roundKey fr = roundKey g
        · exact Or.inl hk
        · refine Or.inr ?_
          have hf : fr ∈ rest.filter (fun x => decide (roundKey x ≠ roundKey g)) :=
            List.mem_filter.mpr ⟨hmem, by simp [hk]⟩
          exact specDedupRounds_covers _ fr hf
termination_by l => l.length
decreasing_by all_goals
  simp only [List.length_cons]
  first
    | exact Nat.lt_succ_of_le (List.length_filter_le _ _)
    | exact Nat.lt_succ_of_le (Nat.le_refl _)

theorem filter_not_mem_nil_invs (invs : List InvestorEntry) :
    invs.filter (fun j => decide (j.name ∉ ([] : List Json))) = invs := by
  apply List.filter_eq_self.mpr
  intro a _
  simp

theorem filter_not_mem_nil_rounds (frs : List FundingRound) :
    frs.filter (fun g => decide (roundKey g ∉ ([] : List (Json × Json × Json × Json)))) = frs := by
  apply List.filter_eq_self.mpr
  intro a _
  simp

theorem dedupInvestors_eq_spec (invs : List InvestorEntry)
    (hh : ∀ inv ∈ invs, truthy inv.name = true → hashableJson inv.name = true) :
    dedupInvestors invs = .ok (specDedupInvestors invs) := by
  have h := dedupInvestorsGo_eq_spec invs [] hh
  rw [filter_not_mem_nil_invs] at h
  exact h

theorem dedupRounds_eq_spec (frs : List FundingRound)
    (hh : ∀ fr ∈ frs, roundKeyHashable fr = true) :
    dedupRounds frs = .ok (specDedupRounds frs) := by
  have h := dedupRoundsGo_eq_spec frs [] hh
  rw [filter_not_mem_nil_rounds] at h
  exact h

/-- C7: the investor deduplication of `_populate_funding_and_investors`
keeps the first occurrence per name, drops every entry whose name is
missing or empty (falsy), and preserves relative order among kept
entries.  The hypothesis excludes the harvested entries on which Python's
set-membership hashing would raise (truthy list/dict-valued names). -/
theorem investors_dedup_first_wins (invs : List InvestorEntry)
    (hh : ∀ inv ∈ invs, truthy inv.name = true → hashableJson inv.name = true) :
    dedupInvestors invs = .ok (specDedupInvestors invs) ∧
    (specDedupInvestors invs).Sublist invs ∧
    (∀ inv ∈ specDedupInvestors invs, truthy inv.name = true) ∧
    ((specDedupInvestors invs).map InvestorEntry.name).Nodup :=
  ⟨dedupInvestors_eq_spec invs hh, specDedupInvestors_sublist invs,
    specDedupInvestors_truthy invs, specDedupInvestors_names_nodup invs⟩

/-- The investor list used to witness C7: a duplicate name, a `None`
name, an empty name, and a second distinct name. -/
def sampleInvestors : List InvestorEntry :=
  [{ name := Json.str "Accel", type := Json.str "vc", path := Json.null },
   { name := Json.null, type := Json.str "vc", path := Json.null },
   { name := Json.str "", type := Json.str "vc", path := Json.null },
   { name := Json.str "Accel", type := Json.null, path := Json.str "accel" },
   { name := Json.str "Index Ventures", type := Json.null, path := Json.null }]

/-- Witness for C7 at a concrete harvested list. -/
theorem investors_dedup_first_wins_witness :
    dedupInvestors sampleInvestors = .ok (specDedupInvestors sampleInvestors) ∧
    (specDedupInvestors sampleInvestors).Sublist sampleInvestors ∧
    (∀ inv ∈ specDedupInvestors sampleInvestors, truthy inv.name = true) ∧
    ((specDedupInvestors sampleInvestors).map InvestorEntry.name).Nodup :=
  investors_dedup_first_wins sampleInvestors (by decide)

/-- C6: after the full script scan, the harvested funding rounds are
deduplicated by their `(year, round, amount, currency)` tuple — the
populated record equals the collected list filtered to the first
occurrence per key, so two rounds with identical tuples (also across
script blocks) yield exactly one output entry, and traversal order is
preserved among the kept entries (`Sublist`).  The hypotheses exclude the
payloads on which Python's set hashing would raise. -/
theorem funding_rounds_dedup_by_key (doc : HtmlDoc) (r : CompanyRecord)
    (hh : ∀ fr ∈ (collectFI doc r).1, roundKeyHashable fr = true)
    (hi : ∀ inv ∈ (collectFI doc r).2, truthy inv.name = true → hashableJson inv.name = true) :
    populate_funding_and_investors doc r =
      .ok { r with funding_rounds := specDedupRounds (collectFI doc r).1,
                   investors := specDedupInvestors (collectFI doc r).2 } ∧
    (specDedupRounds (collectFI doc r).1).Sublist (collectFI doc r).1 ∧
    ((specDedupRounds (collectFI doc r).1).map roundKey).Nodup ∧
    ∀ fr ∈ (collectFI doc r).1,
      roundKey fr ∈ (specDedupRounds (collectFI doc r).1).map roundKey := by
  refine ⟨?_, specDedupRounds_sublist _, specDedupRounds_keys_nodup _,
    specDedupRounds_covers _⟩
  unfold populate_funding_and_investors
  simp only [dedupRounds_eq_spec _ hh, dedupInvestors_eq_spec _ hi]

/-- The document used to witness C6: two script blocks carrying the same
`(2020, seed, 1000000, USD)` round. -/
def duplicateRoundsDoc : HtmlDoc :=
  { scripts :=
      [{ typeAttr := none,
         text := "\x7b\"funding_rounds\": [\x7b\"year\": 2020, \"round\": \"seed\", \"amount\": 1000000, \"currency\": \"USD\"\x7d]\x7d",
         json := some (Json.obj [("funding_rounds", Json.arr
           [Json.obj [("year", Json.num 2020), ("round", Json.str "seed"),
                      ("amount", Json.num 1000000), ("currency", Json.str "USD")]])]) },
       { typeAttr := none,
         text := "\x7b\"data\": \x7b\"funding_rounds\": [\x7b\"year\": 2020, \"round\": \"seed\", \"amount\": 1000000, \"currency\": \"USD\"\x7d]\x7d\x7d",
         json := some (Json.obj [("data", Json.obj [("funding_rounds", Json.arr
           [Json.obj [("year", Json.num 2020), ("round", Json.str "seed"),
                      ("amount", Json.num 1000000), ("currency", Json.str "USD")]])])]) }] }

/-- Witness for C6 at a concrete two-script document. -/
theorem funding_rounds_dedup_by_key_witness :
    populate_funding_and_investors duplicateRoundsDoc {} =
      .ok { ({} : CompanyRecord) with
              funding_rounds := specDedupRounds (collectFI duplicateRoundsDoc {}).1,
              investors := specDedupInvestors (collectFI duplicateRoundsDoc {}).2 } ∧
    (specDedupRounds (collectFI duplicateRoundsDoc {}).1).Sublist
      (collectFI duplicateRoundsDoc {}).1 ∧
    ((specDedupRounds (collectFI duplicateRoundsDoc {}).1).map roundKey).Nodup ∧
    ∀ fr ∈ (collectFI duplicateRoundsDoc {}).1,
      roundKey fr ∈ (specDedupRounds (collectFI duplicateRoundsDoc {}).1).map roundKey :=
  funding_rounds_dedup_by_key duplicateRoundsDoc {} (by decide) (by decide)
theorem statusUpdate_isSome (text : String) (r : CompanyRecord) :
    (statusUpdate text r).company_status.isSome = true := by
  unfold statusUpdate
  split
  · split
    · rfl
    · split
      · rfl
      · split <;> rfl
  · rename_i hn
    cases hcs : r.company_status with
    | none => rw [hcs] at hn; simp at hn
    | some s => rfl

theorem populate_status_isSome (doc : HtmlDoc) (r : CompanyRecord) :
    (populate_status_and_stage doc r).company_status.isSome = true := by
  unfold populate_status_and_stage
  rw [stageUpdate_status]
  exact statusUpdate_isSome _ _

theorem populate_funding_status (doc : HtmlDoc) (r r' : CompanyRecord)
    (h : populate_funding_and_investors doc r = .ok r') :
    r'.company_status = r.company_status := by
  unfold populate_funding_and_investors at h
  split at h
  · exact absurd h (by simp)
  · split at h
    · exact absurd h (by simp)
    · injection h with h2
      rw [← h2]

theorem populate_locations_status (doc : HtmlDoc) (r r' : CompanyRecord)
    (h : populate_locations doc r = .ok r') :
    r'.company_status = r.company_status := by
  unfold populate_locations at h
  split at h
  · exact absurd h (by simp)
  · injection h with h2
    rw [← h2]

theorem recordPipeline_status (doc : HtmlDoc) (ldo : Option Json)
    (r r' : CompanyRecord) (h : recordPipeline doc ldo r = .ok r') :
    r'.company_status.isSome = true := by
  unfold recordPipeline at h
  split at h
  · exact absurd h (by simp)
  · split at h
    · exact absurd h (by simp)
    · rename_i r2 heq2
      split at h
      · exact absurd h (by simp)
      · rename_i r3 heq3
        injection h with h2
        subst h2
        rw [populate_locations_status _ _ _ heq3,
            populate_funding_status _ _ _ heq2]
        exact populate_status_isSome _ _

theorem to_dict_values_not_dropped (r : CompanyRecord) :
    ∀ kv ∈ r.to_dict, dropValue kv.2 = false := by
  intro kv hkv
  unfold CompanyRecord.to_dict at hkv
  have h := List.of_mem_filter hkv
  simpa using h

theorem lookup_cons_ne (k k1 : String) (v : Json) (l : List (String × Json))
    (h : (k == k1) = false) : List.lookup k ((k1, v) :: l) = List.lookup k l := by
  simp [List.lookup, h]

theorem lookup_status_filter (s : String) (rest : List (String × Json)) :
    ((List.filter (fun kv => !dropValue kv.2)
        (("company_status", Json.str s) :: rest)).lookup "company_status").isSome = true := by
  rw [List.filter_cons]
  simp [List.lookup, dropValue]

theorem to_dict_status_isSome (r : CompanyRecord) (h : r.company_status.isSome = true) :
    ((r.to_dict).lookup "company_status").isSome = true := by
  obtain ⟨s, hs⟩ := Option.isSome_iff_exists.mp h
  unfold CompanyRecord.to_dict rawFields
  rw [hs]
  rw [List.filter_cons]
  split
  · rw [lookup_cons_ne _ _ _ _ (by decide)]
    exact lookup_status_filter s _
  · exact lookup_status_filter s _

/-- C5 counterexample: a funding payload carrying only a `year` yields an
output whose `funding_rounds` entry contains `null` round/amount/currency
and an empty `investors` list, so the serialized-and-reparsed mapping is
NOT free of nulls and empty containers at nested depth.  The claim
asserts no null/empty value appears anywhere. -/
theorem serialized_record_nested_null_example :
    extract_company_data
      { scripts := [{ typeAttr := none,
                      text := "\x7b\"funding_rounds\": [\x7b\"year\": 2020\x7d]\x7d",
                      json := some (Json.obj [("funding_rounds",
                        Json.arr [Json.obj [("year", Json.num 2020)]])]) }] } none =
    .ok [("company_status", Json.str "operational"),
         ("funding_rounds", Json.arr [Json.obj
            [("year", Json.num 2020), ("round", Json.null), ("amount", Json.null),
             ("currency", Json.null), ("investors", Json.arr [])]])] ∧
    mappingClean
      [("company_status", Json.str "operational"),
       ("funding_rounds", Json.arr [Json.obj
          [("year", Json.num 2020), ("round", Json.null), ("amount", Json.null),
           ("currency", Json.null), ("investors", Json.arr [])]])] = false :=
  ⟨rfl, rfl⟩

/-- C5 (corrected): the cleaning of `to_dict` applies to the TOP level of
the serialized record only — every successful extraction yields a mapping
whose top-level values are never `null` and never empty containers, and
in which `company_status` is always present; nested entries (inside
`funding_rounds`, `investors`, `hq_locations`) may still contain nulls or
empty lists. -/
theorem serialized_record_top_level_clean (doc : HtmlDoc) (url : Option String)
    (res : List (String × Json)) (h : extract_company_data doc url = .ok res) :
    (∀ kv ∈ res, dropValue kv.2 = false) ∧
    (res.lookup "company_status").isSome = true := by
  unfold extract_company_data at h
  split at h
  · exact absurd h (by simp)
  · split at h
    · exact absurd h (by simp)
    · rename_i r heq
      injection h with h2
      subst h2
      exact ⟨to_dict_values_not_dropped r,
        to_dict_status_isSome r (recordPipeline_status _ _ _ _ heq)⟩

theorem serialized_record_top_level_clean_witness :
    (∀ kv ∈ [("company_status", Json.str "operational")], dropValue kv.2 = false) ∧
    (([("company_status", Json.str "operational")] : List (String × Json)).lookup
      "company_status").isSome = true :=
  serialized_record_top_level_clean {} none [("company_status", Json.str "operational")] rfl
theorem applyEmployees_setRaw (e : Json) (v : Option String) (r : CompanyRecord) :
    applyEmployees e { r with raw_source_url := v } =
      { applyEmployees e r with raw_source_url := v } := by
  cases e <;> rfl

theorem assign_setRaw (href : String) (v : Option String) (r : CompanyRecord) :
    assign_social_link href { r with raw_source_url := v } =
      { assign_social_link href r with raw_source_url := v } := by
  unfold assign_social_link
  by_cases h1 : pyIn "linkedin.com" (lowerStr href) = true
  · simp [h1]
  · by_cases h2 : (pyIn "twitter.com" (lowerStr href) || pyIn "x.com" (lowerStr href)) = true
    · simp [h1, h2]
    · by_cases h3 : pyIn "instagram.com" (lowerStr href) = true
      · simp [h1, h2, h3]
      · by_cases h4 : pyIn "facebook.com" (lowerStr href) = true
        · simp [h1, h2, h3, h4]
        · by_cases h5 : (pyIn "youtube.com" (lowerStr href) || pyIn "youtu.be" (lowerStr href)) = true
          · simp [h1, h2, h3, h4, h5]
          · simp [h1, h2, h3, h4, h5]

theorem foldl_assign_setRaw (ls : List String) (v : Option String) (r : CompanyRecord) :
    ls.foldl (fun acc l => assign_social_link l acc) { r with raw_source_url := v } =
      { ls.foldl (fun acc l => assign_social_link l acc) r with raw_source_url := v } := by
  induction ls generalizing r with
  | nil => rfl
  | cons a ls ih =>
      rw [List.foldl_cons, List.foldl_cons, assign_setRaw, ih]

theorem populate_social_links_setRaw (doc : HtmlDoc) (v : Option String) (r : CompanyRecord) :
    populate_social_links doc { r with raw_source_url := v } =
      { populate_social_links doc r with raw_source_url := v } := by
  unfold populate_social_links
  exact foldl_assign_setRaw doc.anchorHrefs v r

theorem aboutFallback_setRaw (doc : HtmlDoc) (v : Option String) (r : CompanyRecord) :
    aboutFallback doc { r with raw_source_url := v } =
      { aboutFallback doc r with raw_source_url := v } := by
  unfold aboutFallback
  dsimp only
  split
  · rfl
  · split <;> rfl

theorem websiteFallback_setRaw (doc : HtmlDoc) (v : Option String) (r : CompanyRecord) :
    websiteFallback doc { r with raw_source_url := v } =
      { websiteFallback doc r with raw_source_url := v } := by
  unfold websiteFallback
  dsimp only
  split
  · rfl
  · split
    · rfl
    · split <;> rfl

theorem populate_meta_fallbacks_setRaw (doc : HtmlDoc) (v : Option String) (r : CompanyRecord) :
    populate_meta_fallbacks doc { r with raw_source_url := v } =
      { populate_meta_fallbacks doc r with raw_source_url := v } := by
  unfold populate_meta_fallbacks
  rw [aboutFallback_setRaw, websiteFallback_setRaw]

theorem statusUpdate_setRaw (text : String) (v : Option String) (r : CompanyRecord) :
    statusUpdate text { r with raw_source_url := v } =
      { statusUpdate text r with raw_source_url := v } := by
  unfold statusUpdate
  dsimp only
  split
  · split
    · rfl
    · split
      · rfl
      · split <;> rfl
  · rfl

theorem stageUpdate_setRaw (text : String) (v : Option String) (r : CompanyRecord) :
    stageUpdate text { r with raw_source_url := v } =
      { stageUpdate text r with raw_source_url := v } := by
  unfold stageUpdate
  dsimp only
  split
  · split <;> rfl
  · rfl

theorem populate_status_setRaw (doc : HtmlDoc) (v : Option String) (r : CompanyRecord) :
    populate_status_and_stage doc { r with raw_source_url := v } =
      { populate_status_and_stage doc r with raw_source_url := v } := by
  unfold populate_status_and_stage
  rw [statusUpdate_setRaw, stageUpdate_setRaw]

theorem ldAboutUpdate_setRaw (ld : Json) (v : Option String) (r : CompanyRecord) :
    ldAboutUpdate ld { r with raw_source_url := v } =
      { ldAboutUpdate ld r with raw_source_url := v } := rfl

theorem ldWebsiteUpdate_setRaw (ld : Json) (v : Option String) (r : CompanyRecord) :
    ldWebsiteUpdate ld { r with raw_source_url := v } =
      { ldWebsiteUpdate ld r with raw_source_url := v } := by
  unfold ldWebsiteUpdate
  split <;> rfl

theorem ldIndustriesUpdate_setRaw (ld : Json) (v : Option String) (r : CompanyRecord) :
    ldIndustriesUpdate ld { r with raw_source_url := v } =
      { ldIndustriesUpdate ld r with raw_source_url := v } := by
  unfold ldIndustriesUpdate
  dsimp only
  split <;> rfl

theorem populate_from_ld_setRaw (ld : Json) (v : Option String) (r : CompanyRecord) :
    populate_from_ld_json ld { r with raw_source_url := v } =
      (populate_from_ld_json ld r).map (fun r' => { r' with raw_source_url := v }) := by
  unfold populate_from_ld_json
  cases employeesValue ld with
  | error e => rfl
  | ok e =>
      exact congrArg Except.ok
        (by rw [ldAboutUpdate_setRaw, ldWebsiteUpdate_setRaw, ldIndustriesUpdate_setRaw,
              applyEmployees_setRaw, foldl_assign_setRaw])

theorem populate_funding_setRaw (doc : HtmlDoc) (v : Option String) (r : CompanyRecord) :
    populate_funding_and_investors doc { r with raw_source_url := v } =
      (populate_funding_and_investors doc r).map
        (fun r' => { r' with raw_source_url := v }) := by
  unfold populate_funding_and_investors
  have hc : collectFI doc { r with raw_source_url := v } = collectFI doc r := rfl
  rw [hc]
  cases dedupRounds (collectFI doc r).1 with
  | error e => rfl
  | ok ur =>
      cases dedupInvestors (collectFI doc r).2 with
      | error e => rfl
      | ok ui => rfl

theorem populate_locations_setRaw (doc : HtmlDoc) (v : Option String) (r : CompanyRecord) :
    populate_locations doc { r with raw_source_url := v } =
      (populate_locations doc r).map (fun r' => { r' with raw_source_url := v }) := by
  unfold populate_locations
  have hc : collectLoc doc { r with raw_source_url := v } = collectLoc doc r := rfl
  rw [hc]
  cases dedupLocationsGo (collectLoc doc r) [] with
  | error e => rfl
  | ok ul => rfl

theorem recordPipeline_setRaw (doc : HtmlDoc) (ldo : Option Json) (v : Option String)
    (r : CompanyRecord) :
    recordPipeline doc ldo { r with raw_source_url := v } =
      (recordPipeline doc ldo r).map (fun r' => { r' with raw_source_url := v }) := by
  unfold recordPipeline
  cases ldo with
  | none =>
      dsimp only
      rw [populate_social_links_setRaw, populate_meta_fallbacks_setRaw, populate_status_setRaw,
          populate_funding_setRaw]
      cases populate_funding_and_investors doc
          (populate_status_and_stage doc
            (populate_meta_fallbacks doc (populate_social_links doc r))) with
      | error e => rfl
      | ok r2 =>
          dsimp only [Except.map]
          rw [populate_locations_setRaw]
          cases populate_locations doc r2 with
          | error e => rfl
          | ok r3 => rfl
  | some ld =>
      dsimp only
      rw [populate_from_ld_setRaw]
      cases populate_from_ld_json ld r with
      | error e => rfl
      | ok r1 =>
          dsimp only [Except.map]
          rw [populate_social_links_setRaw, populate_meta_fallbacks_setRaw,
              populate_status_setRaw, populate_funding_setRaw]
          cases populate_funding_and_investors doc
              (populate_status_and_stage doc
                (populate_meta_fallbacks doc (populate_social_links doc r1))) with
          | error e => rfl
          | ok r2 =>
              dsimp only [Except.map]
              rw [populate_locations_setRaw]
              cases populate_locations doc r2 with
              | error e => rfl
              | ok r3 => rfl

theorem to_dict_setRaw (r : CompanyRecord) (u : String) :
    CompanyRecord.to_dict { r with raw_source_url := some u } =
      CompanyRecord.to_dict { r with raw_source_url := none } ++
        [("raw_source_url", Json.str u)] := by
  have key : ∀ v : Option String,
      rawFields { r with raw_source_url := v } =
        (rawFields { r with raw_source_url := none }).dropLast ++
          [("raw_source_url", optStrJson v)] := fun v => rfl
  unfold CompanyRecord.to_dict
  rw [key (some u), key none, List.filter_append, List.filter_append]
  simp [dropValue, optStrJson, List.filter]

theorem to_dict_none_no_raw_key (r : CompanyRecord) :
    ∀ kv ∈ CompanyRecord.to_dict { r with raw_source_url := none },
      ¬(kv.1 = "raw_source_url") := by
  intro kv hkv
  unfold CompanyRecord.to_dict at hkv
  have hkeep := List.of_mem_filter hkv
  have hmem := List.mem_of_mem_filter hkv
  unfold rawFields at hmem
  simp only [List.mem_cons, List.not_mem_nil, or_false] at hmem
  rcases hmem with rfl | rfl | rfl | rfl | rfl | rfl | rfl | rfl | rfl | rfl | rfl | rfl |
    rfl | rfl | rfl | rfl | rfl | rfl | rfl | rfl <;>
    simp_all [dropValue, optStrJson]

/-- C10: omitting the source URL never changes anything but the
`raw_source_url` output entry — whenever extraction with a URL succeeds,
extraction of the same document with `None` succeeds and returns exactly
the same mapping minus the `raw_source_url` key, which is omitted
entirely (never present with a null value). -/
theorem omitted_source_url_field_absent (doc : HtmlDoc) (u : String)
    (res : List (String × Json)) (h : extract_company_data doc (some u) = .ok res) :
    extract_company_data doc none =
      .ok (res.filter (fun kv => !(kv.1 == "raw_source_url"))) ∧
    "raw_source_url" ∉ (res.filter (fun kv => !(kv.1 == "raw_source_url"))).map Prod.fst := by
  constructor
  · unfold extract_company_data at h ⊢
    split at h
    · exact absurd h (by simp)
    · rename_i ldo hld
      have hinit : ∀ v : Option String,
          ({ raw_source_url := v } : CompanyRecord) =
            { ({} : CompanyRecord) with raw_source_url := v } := fun v => rfl
      rw [hinit none]
      rw [hinit (some u)] at h
      rw [recordPipeline_setRaw] at h
      rw [recordPipeline_setRaw]
      cases hpip : recordPipeline doc ldo {} with
      | error e =>
          rw [hpip] at h
          exact absurd h (by simp [Except.map])
      | ok rfin =>
          rw [hpip] at h
          simp only [Except.map] at h ⊢
          injection h with h2
          subst h2
          rw [to_dict_setRaw]
          congr 1
          rw [List.filter_append]
          have h1 : (CompanyRecord.to_dict { rfin with raw_source_url := none }).filter
              (fun kv => !(kv.1 == "raw_source_url")) =
              CompanyRecord.to_dict { rfin with raw_source_url := none } := by
            apply List.filter_eq_self.mpr
            intro kv hkv
            have := to_dict_none_no_raw_key rfin kv hkv
            simpa using this
          rw [h1]
          simp
  · intro hx
    rcases List.mem_map.mp hx with ⟨kv, hkv, hkeq⟩
    have := List.of_mem_filter hkv
    rw [hkeq] at this
    simp at this

/-- Witness for C10 at a concrete document and URL. -/
theorem omitted_source_url_field_absent_witness :
    extract_company_data {} none =
      .ok ([("company_status", Json.str "operational"),
            ("raw_source_url", Json.str "https://example.com")].filter
        (fun kv => !(kv.1 == "raw_source_url"))) ∧
    "raw_source_url" ∉ (([("company_status", Json.str "operational"),
            ("raw_source_url", Json.str "https://example.com")].filter
        (fun kv => !(kv.1 == "raw_source_url"))) :
          List (String × Json)).map Prod.fst :=
  omitted_source_url_field_absent {} "https://example.com"
    [("company_status", Json.str "operational"),
     ("raw_source_url", Json.str "https://example.com")] rfl
